import Mathlib

/-!
Verification development for the code-analysis-tool repository.

The repository has two subsystems:
* a structural extractor (`src/parser.js`): Babel-style syntax trees are
  walked generically and function-like nodes are recorded;
* a change-driven documentation synchronizer (`scripts/doc-agent.js` and the
  near-identical revision in `unnamed/part_002`): git-based change selection,
  a Gemini generation client with retry/backoff, and a marker-region document
  patcher.

Shallow embedding: JavaScript values are modelled by the inductive `JSVal`;
effectful collaborators (fetch, git, the file system) are modelled by passing
their observable outcomes in as data, and each embedded function returns its
result together with a trace of its observable effects (network calls, sleeps,
warnings).  Babel's `parse` is an external dependency; its outcome for a given
source text is supplied as data (`SourceText.parsed`).
-/

namespace CodeAnalysis

/-- Model of a JavaScript runtime value, as far as the analyzed code observes
them: `undefined`, `null`, booleans, numbers, strings, plain objects (ordered
field lists, unique keys as produced by `JSON.parse`/Babel) and arrays. -/
inductive JSVal : Type where
  | vundefined : JSVal
  | vnull : JSVal
  | vbool (b : Bool) : JSVal
  | vnum (n : Int) : JSVal
  | vstr (s : String) : JSVal
  | vobj (fields : List (String × JSVal)) : JSVal
  | varr (elems : List JSVal) : JSVal
deriving Repr

/-- JavaScript truthiness: `undefined`, `null`, `false`, `0` and `""` are
falsy; objects and arrays are always truthy. -/
def truthy : JSVal → Bool
  | .vundefined => false
  | .vnull => false
  | .vbool b => b
  | .vnum n => n != 0
  | .vstr s => s != ""
  | .vobj _ => true
  | .varr _ => true

/-- Property access `v.k`.  On objects it is association-list lookup; on
arrays only `length` is consulted by the analyzed code.  Access on a
non-object yields `undefined` (the analyzed code only dereferences properties
behind truthiness guards or on well-formed parser output, so the throwing
cases of JavaScript member access are never reached). -/
def getField : JSVal → String → JSVal
  | .vobj fields, k =>
    match fields.lookup k with
    | some v => v
    | none => .vundefined
  | .varr elems, k => if k = "length" then .vnum elems.length else .vundefined
  | _, _ => .vundefined

/-- Indexed access `v[i]` for a numeric index, as used on parsed JSON. -/
def getIndex : JSVal → Nat → JSVal
  | .varr elems, i =>
    match elems.get? i with
    | some v => v
    | none => .vundefined
  | .vobj fields, i => getField (.vobj fields) (toString i)
  | _, _ => .vundefined

/-- Whether `v` is `null` or `undefined` (the short-circuit test of `?.`). -/
def isNullish : JSVal → Bool
  | .vnull => true
  | .vundefined => true
  | _ => false

/-- Optional-chained property access `v?.k`. -/
def optField (v : JSVal) (k : String) : JSVal :=
  if isNullish v then .vundefined else getField v k

/-- Optional-chained indexed access `v?.[i]`. -/
def optIndex (v : JSVal) (i : Nat) : JSVal :=
  if isNullish v then .vundefined else getIndex v i

/-- Strict equality `v === "s"` against a string literal: true exactly when
`v` is a string with that content. -/
def isStr (v : JSVal) (s : String) : Bool :=
  match v with
  | .vstr t => t = s
  | _ => false

/-! ## src/parser.js — the structural extractor -/

/-- One element of the `functions` array built by `extractFunctions` in
`src/parser.js`.  Field values are kept as `JSVal` because the source copies
raw node properties (`node.async`, `node.key.name || 'computed'`, …) into the
record.  `kind` is present only on method records. -/
structure FunRecord where
  rtype : String
  name : JSVal
  line : JSVal
  async : JSVal
  generator : JSVal
  params : JSVal
  kind : Option JSVal
deriving Repr

/-- The node-kind dispatch table of `traverse` in `src/parser.js`: the three
`if (node.type === …)` blocks that push records.  It inspects a single node
and never descends. -/
def recordsOf (node : JSVal) : List FunRecord :=
  (if isStr (getField node "type") "FunctionDeclaration" then
    [{ rtype := "function"
       name :=
         if truthy (getField node "id") then getField (getField node "id") "name"
         else .vstr "anonymous"
       line :=
         if truthy (getField node "loc") then
           getField (getField (getField node "loc") "start") "line"
         else .vnull
       async := getField node "async"
       generator := getField node "generator"
       params := getField (getField node "params") "length"
       kind := none }]
  else []) ++
  (if isStr (getField node "type") "ArrowFunctionExpression" ||
      isStr (getField node "type") "FunctionExpression" then
    [{ rtype :=
         if isStr (getField node "type") "ArrowFunctionExpression" then "arrow"
         else "expression"
       name := .vstr "anonymous"
       line :=
         if truthy (getField node "loc") then
           getField (getField (getField node "loc") "start") "line"
         else .vnull
       async := getField node "async"
       generator := getField node "generator"
       params := getField (getField node "params") "length"
       kind := none }]
  else []) ++
  (if isStr (getField node "type") "MethodDefinition" then
    [{ rtype := "method"
       name :=
         if truthy (getField (getField node "key") "name") then
           getField (getField node "key") "name"
         else .vstr "computed"
       line :=
         if truthy (getField node "loc") then
           getField (getField (getField node "loc") "start") "line"
         else .vnull
       async := getField (getField node "value") "async"
       generator := getField (getField node "value") "generator"
       params := getField (getField (getField node "value") "params") "length"
       kind := some (getField node "kind") }]
  else [])

mutual
/-- The recursive `traverse` of `src/parser.js`.  On a truthy object it first
runs the dispatch table, then iterates every own field in order; object-valued
fields are traversed, array-valued fields have `traverse` mapped over their
elements (`node[key].forEach(traverse)`).  Arrays reached directly also have
every element walked (`for key in node` enumerates indices). -/
def traverse : JSVal → List FunRecord
  | .vobj fields => recordsOf (.vobj fields) ++ traverseFields fields
  | .varr elems => traverseElems elems
  | _ => []

/-- The `for (const key in node)` loop body of `traverse` over an object's
fields, in field order. -/
def traverseFields : List (String × JSVal) → List FunRecord
  | [] => []
  | (_, v) :: rest => childStep v ++ traverseFields rest

/-- The `for (const key in node)` loop over an array's index properties. -/
def traverseElems : List JSVal → List FunRecord
  | [] => []
  | e :: rest => childStep e ++ traverseElems rest

/-- The per-child conditional: descend when the child is a truthy object;
for arrays run `forEach(traverse)`; skip everything else. -/
def childStep : JSVal → List FunRecord
  | .vobj fields => traverse (.vobj fields)
  | .varr elems => forEachTraverse elems
  | _ => []

/-- `node[key].forEach(traverse)` on an array-valued child field. -/
def forEachTraverse : List JSVal → List FunRecord
  | [] => []
  | e :: rest => traverse e ++ forEachTraverse rest
end

mutual
/-- The pre-order (depth-first, top-down) listing of the object nodes of a
tree, descending through every object-valued and array-valued child field in
field order — the generic document-order walk, independent of the dispatch
table. -/
def nodesOf : JSVal → List JSVal
  | .vobj fields => .vobj fields :: nodesFields fields
  | .varr elems => nodesElems elems
  | _ => []

/-- Pre-order object nodes reachable through a field list, in field order. -/
def nodesFields : List (String × JSVal) → List JSVal
  | [] => []
  | (_, v) :: rest => nodesOf v ++ nodesFields rest

/-- Pre-order object nodes reachable through the elements of an array. -/
def nodesElems : List JSVal → List JSVal
  | [] => []
  | e :: rest => nodesOf e ++ nodesElems rest
end

/-- `traverse` factors through the generic walk: the records are exactly the
dispatch table applied to every node of the pre-order listing, in that
order. -/
theorem traverse_eq_flatMap_recordsOf (v : JSVal) :
    traverse v = (nodesOf v).flatMap recordsOf := by
  refine @traverse.induct
    (fun v => traverse v = (nodesOf v).flatMap recordsOf)
    (fun es => traverseElems es = (nodesElems es).flatMap recordsOf)
    (fun v => childStep v = (nodesOf v).flatMap recordsOf)
    (fun es => forEachTraverse es = (nodesElems es).flatMap recordsOf)
    (fun fs => traverseFields fs = (nodesFields fs).flatMap recordsOf)
    ?_ ?_ ?_ ?_ ?_ ?_ ?_ ?_ ?_ ?_ ?_ ?_ v
  · intro fields ih
    simp [traverse, nodesOf, ih]
  · intro elems ih
    simp [traverse, nodesOf, ih]
  · intro x h1 h2
    cases x with
    | vobj fields => exact absurd rfl (h1 fields)
    | varr elems => exact absurd rfl (h2 elems)
    | vundefined => simp [traverse.eq_def, nodesOf.eq_def]
    | vnull => simp [traverse.eq_def, nodesOf.eq_def]
    | vbool b => simp [traverse.eq_def, nodesOf.eq_def]
    | vnum n => simp [traverse.eq_def, nodesOf.eq_def]
    | vstr t => simp [traverse.eq_def, nodesOf.eq_def]
  · simp [traverseElems, nodesElems]
  · intro e rest ih1 ih2
    simp [traverseElems, nodesElems, ih1, ih2]
  · intro fields ih
    simp [childStep, ih]
  · intro elems ih
    simp [childStep, nodesOf, ih]
  · intro x h1 h2
    cases x with
    | vobj fields => exact absurd rfl (h1 fields)
    | varr elems => exact absurd rfl (h2 elems)
    | vundefined => simp [childStep.eq_def, nodesOf.eq_def]
    | vnull => simp [childStep.eq_def, nodesOf.eq_def]
    | vbool b => simp [childStep.eq_def, nodesOf.eq_def]
    | vnum n => simp [childStep.eq_def, nodesOf.eq_def]
    | vstr t => simp [childStep.eq_def, nodesOf.eq_def]
  · simp [forEachTraverse, nodesElems]
  · intro e rest ih1 ih2
    simp [forEachTraverse, nodesElems, ih1, ih2]
  · simp [traverseFields, nodesFields]
  · intro k v rest ih1 ih2
    simp [traverseFields, nodesFields, ih1, ih2]

/-- Reachability through the generic walk is transitively closed: every node
listed for a subtree that is itself listed for `v` is listed for `v`. -/
theorem mem_nodesOf_closed (v : JSVal) :
    ∀ n, n ∈ nodesOf v → nodesOf n ⊆ nodesOf v := by
  refine @nodesOf.induct
    (fun v => ∀ n, n ∈ nodesOf v → nodesOf n ⊆ nodesOf v)
    (fun es => ∀ n, n ∈ nodesElems es → nodesOf n ⊆ nodesElems es)
    (fun fs => ∀ n, n ∈ nodesFields fs → nodesOf n ⊆ nodesFields fs)
    ?_ ?_ ?_ ?_ ?_ ?_ ?_ v
  · intro fields ih n hn
    simp only [nodesOf] at hn ⊢
    rcases List.mem_cons.mp hn with h | h
    · subst h
      simp only [nodesOf]
      exact List.Subset.refl _
    · exact fun x hx => List.mem_cons_of_mem _ (ih n h hx)
  · intro elems ih n hn
    simp only [nodesOf] at hn ⊢
    exact ih n hn
  · intro t h1 h2 n hn
    cases t with
    | vobj fields => exact absurd rfl (h1 fields)
    | varr elems => exact absurd rfl (h2 elems)
    | vundefined => simp [nodesOf.eq_def] at hn
    | vnull => simp [nodesOf.eq_def] at hn
    | vbool b => simp [nodesOf.eq_def] at hn
    | vnum n => simp [nodesOf.eq_def] at hn
    | vstr t => simp [nodesOf.eq_def] at hn
  · intro n hn
    simp [nodesFields] at hn
  · intro k v rest ih1 ih2 n hn
    simp only [nodesFields] at hn ⊢
    rcases List.mem_append.mp hn with h | h
    · exact (ih1 n h).trans (List.subset_append_left _ _)
    · exact (ih2 n h).trans (List.subset_append_right _ _)
  · intro n hn
    simp [nodesElems] at hn
  · intro e rest ih1 ih2 n hn
    simp only [nodesElems] at hn ⊢
    rcases List.mem_append.mp hn with h | h
    · exact (ih1 n h).trans (List.subset_append_left _ _)
    · exact (ih2 n h).trans (List.subset_append_right _ _)

/-- C2: the dispatch table of the FunctionExtractor decides only whether to
record a node, never whether to descend: `traverse` equals the dispatch table
mapped over the generic pre-order walk `nodesOf` (which descends through every
object-valued and array-valued child field), the walk is closed under
reachability (so nested function-like nodes are always discovered), and every
record of every reachable node — e.g. a function expression nested inside
another function's body — occurs in the output. -/
theorem c2_traversal_generic_and_preorder :
    ∀ v : JSVal,
      traverse v = (nodesOf v).flatMap recordsOf ∧
      (∀ n, n ∈ nodesOf v → nodesOf n ⊆ nodesOf v) ∧
      (∀ n r, n ∈ nodesOf v → r ∈ recordsOf n → r ∈ traverse v) := by
  intro v
  refine ⟨traverse_eq_flatMap_recordsOf v, mem_nodesOf_closed v, ?_⟩
  intro n r hn hr
  rw [traverse_eq_flatMap_recordsOf]
  exact List.mem_flatMap.mpr ⟨n, hn, hr⟩

/-- A function expression node with no surrounding context, as Babel would
produce for the inner function of `function outer() { (function () {}) }`. -/
def demoInnerFun : JSVal :=
  .vobj [("type", .vstr "FunctionExpression"),
         ("id", .vnull),
         ("params", .varr []),
         ("async", .vbool false),
         ("generator", .vbool false)]

/-- A function declaration whose body contains `demoInnerFun` nested inside
an expression statement. -/
def demoOuterFun : JSVal :=
  .vobj [("type", .vstr "FunctionDeclaration"),
         ("id", .vobj [("name", .vstr "outer")]),
         ("params", .varr []),
         ("async", .vbool false),
         ("generator", .vbool false),
         ("body", .vobj [("type", .vstr "BlockStatement"),
                         ("body", .varr [.vobj [("type", .vstr "ExpressionStatement"),
                                                ("expression", demoInnerFun)]])])]

/-- Witness for C2 at a concrete nested tree: the factoring equality holds,
the nested function expression is reachable, and its record is produced. -/
theorem c2_traversal_generic_and_preorder_witness :
    traverse demoOuterFun = (nodesOf demoOuterFun).flatMap recordsOf ∧
    nodesOf demoInnerFun ⊆ nodesOf demoOuterFun ∧
    ({ rtype := "expression", name := .vstr "anonymous", line := .vnull,
       async := .vbool false, generator := .vbool false, params := .vnum 0,
       kind := none } : FunRecord) ∈ traverse demoOuterFun := by
  refine ⟨(c2_traversal_generic_and_preorder demoOuterFun).1,
          (c2_traversal_generic_and_preorder demoOuterFun).2.1 demoInnerFun ?_,
          (c2_traversal_generic_and_preorder demoOuterFun).2.2 demoInnerFun _ ?_ ?_⟩
  · simp [demoOuterFun, demoInnerFun, nodesOf, nodesFields, nodesElems]
  · simp [demoOuterFun, demoInnerFun, nodesOf, nodesFields, nodesElems]
  · simp [demoInnerFun, recordsOf, getField, isStr, truthy, List.lookup]

/-- `isStr v s` holds exactly when `v` is the string `s`. -/
theorem isStr_eq_true_iff (v : JSVal) (s : String) : isStr v s = true ↔ v = .vstr s := by
  cases v <;> simp [isStr]

/-- C8: for a method-definition node the dispatch table emits exactly one
record of kind `method`; its name is `node.key.name` when that is a truthy
value (in particular any statically known, non-empty identifier key) and the
literal string `"computed"` otherwise (in particular when the key has no
`name` property, as for computed or literal keys). -/
theorem c8_method_name_from_key :
    ∀ node : JSVal, isStr (getField node "type") "MethodDefinition" = true →
      ∃ r : FunRecord, recordsOf node = [r] ∧ r.rtype = "method" ∧
        r.name = (if truthy (getField (getField node "key") "name") then
            getField (getField node "key") "name" else .vstr "computed") ∧
        (∀ s : String, s ≠ "" → getField (getField node "key") "name" = .vstr s →
            r.name = .vstr s) ∧
        (truthy (getField (getField node "key") "name") = false →
            r.name = .vstr "computed") := by
  intro node h
  have htype : getField node "type" = .vstr "MethodDefinition" :=
    (isStr_eq_true_iff _ _).mp h
  have hlist : recordsOf node =
      [{ rtype := "method"
         name := if truthy (getField (getField node "key") "name") then
             getField (getField node "key") "name" else .vstr "computed"
         line := if truthy (getField node "loc") then
             getField (getField (getField node "loc") "start") "line" else .vnull
         async := getField (getField node "value") "async"
         generator := getField (getField node "value") "generator"
         params := getField (getField (getField node "value") "params") "length"
         kind := some (getField node "kind") }] := by
    simp [recordsOf, htype, isStr]
  refine ⟨_, hlist, rfl, rfl, ?_, ?_⟩
  · intro s hs hname
    simp [hname, truthy, hs]
  · intro hnt
    simp [hnt]

/-- A method-definition node with a statically known identifier key. -/
def demoNamedMethod : JSVal :=
  .vobj [("type", .vstr "MethodDefinition"),
         ("key", .vobj [("name", .vstr "getValue")]),
         ("kind", .vstr "get"),
         ("value", .vobj [("type", .vstr "FunctionExpression"),
                          ("async", .vbool false),
                          ("generator", .vbool false),
                          ("params", .varr [])])]

/-- A method-definition node with a computed key (no `name` on the key). -/
def demoComputedMethod : JSVal :=
  .vobj [("type", .vstr "MethodDefinition"),
         ("key", .vobj [("type", .vstr "BinaryExpression")]),
         ("kind", .vstr "method"),
         ("value", .vobj [("type", .vstr "FunctionExpression"),
                          ("async", .vbool false),
                          ("generator", .vbool false),
                          ("params", .varr [])])]

/-- Witness for C8 at the two concrete method nodes. -/
theorem c8_method_name_from_key_witness :
    (∃ r : FunRecord, recordsOf demoNamedMethod = [r] ∧ r.name = .vstr "getValue") ∧
    (∃ r : FunRecord, recordsOf demoComputedMethod = [r] ∧ r.name = .vstr "computed") := by
  constructor
  · obtain ⟨r, hr, -, -, hn, -⟩ :=
      c8_method_name_from_key demoNamedMethod (by simp [demoNamedMethod, isStr, getField])
    exact ⟨r, hr, hn "getValue" (by simp) (by simp [demoNamedMethod, getField, List.lookup])⟩
  · obtain ⟨r, hr, -, -, -, hc⟩ :=
      c8_method_name_from_key demoComputedMethod (by simp [demoComputedMethod, isStr, getField])
    exact ⟨r, hr, hc (by simp [demoComputedMethod, getField, truthy, List.lookup])⟩

/-! ## src/parser.js — extractFunctions and parseFile -/

/-- The newline character, named so that line counting is explicit:
JavaScript computes the line count as `code.split(chr).length`, which equals
one plus the number of occurrences of the separator character. -/
def newlineChar : Char := Char.ofNat 10

/-- A source text together with the outcome Babel's `parse` produces for it
(`parse` is an external dependency; its result for a given text is supplied
as data: either the program's syntax tree or the thrown diagnostic). -/
structure SourceText where
  content : String
  parsed : Except String JSVal

/-- `extractFunctions` of `src/parser.js`: parse and traverse inside a
`try`; a parse error is caught, logged with `console.warn`, and an empty
array is returned — the diagnostic is not part of the return value.  The
function is total: malformed input cannot abort the process. -/
def extractFunctions (src : SourceText) : List FunRecord :=
  match src.parsed with
  | .ok ast => traverse ast
  | .error _ => []

/-- The per-file analysis object built by `parseFile` in `src/parser.js`. -/
structure FileAnalysis where
  filePath : String
  functions : List FunRecord
  functionCount : Nat
  lineCount : Nat
  size : Nat
  error : Option String
deriving Repr

/-- `parseFile` of `src/parser.js`: the read outcome is supplied as data.
Its own `catch` only ever sees read failures, because `extractFunctions`
swallows parse errors internally; so `error` is populated only when the file
cannot be read. -/
def parseFile (filePath : String) (readResult : Except String SourceText) :
    FileAnalysis :=
  match readResult with
  | .ok src =>
      { filePath := filePath
        functions := extractFunctions src
        functionCount := (extractFunctions src).length
        lineCount := src.content.data.count newlineChar + 1
        size := src.content.length
        error := none }
  | .error msg =>
      { filePath := filePath, functions := [], functionCount := 0,
        lineCount := 0, size := 0, error := some msg }

/-- A malformed but readable source text and its Babel diagnostic. -/
def malformedSource : SourceText :=
  { content := "function (", parsed := .error "Unexpected token (1:10)" }

/-- C5 counterexample: for a malformed but readable text the extraction is
empty, but the per-file analysis records no error at all — the `ParseError`
diagnostic is absent from the `FileAnalysis`, contradicting the claim that it
is recorded there. -/
theorem c5_parse_error_counterexample :
    extractFunctions malformedSource = [] ∧
    (parseFile "bad.js" (.ok malformedSource)).error = none ∧
    (parseFile "bad.js" (.ok malformedSource)).lineCount = 1 := by
  refine ⟨rfl, rfl, rfl⟩

/-- C5 amended: malformed but readable source yields an empty function
sequence and a normally returned `FileAnalysis` (never a fault — the model is
a total function), but with `error = none`: the parse diagnostic is only
logged, not recorded.  The `error` field carries a diagnostic only when the
file read itself fails. -/
theorem c5_parse_error_behaviour :
    (∀ p src msg, src.parsed = .error msg →
        extractFunctions src = [] ∧
        parseFile p (.ok src) =
          { filePath := p, functions := [], functionCount := 0,
            lineCount := src.content.data.count newlineChar + 1,
            size := src.content.length, error := none }) ∧
    (∀ p msg, parseFile p (.error msg) =
        { filePath := p, functions := [], functionCount := 0,
          lineCount := 0, size := 0, error := some msg }) := by
  constructor
  · intro p src msg h
    constructor
    · simp [extractFunctions, h]
    · simp [parseFile, extractFunctions, h]
  · intro p msg
    rfl

/-- Witness for C5 (amended) at the concrete malformed source and at a
concrete unreadable file. -/
theorem c5_parse_error_behaviour_witness :
    (extractFunctions malformedSource = [] ∧
      parseFile "bad.js" (.ok malformedSource) =
        { filePath := "bad.js", functions := [], functionCount := 0,
          lineCount := 1, size := 10, error := none }) ∧
    parseFile "gone.js" (.error "ENOENT: no such file or directory") =
      { filePath := "gone.js", functions := [], functionCount := 0,
        lineCount := 0, size := 0, error := some "ENOENT: no such file or directory" } := by
  constructor
  · have h := c5_parse_error_behaviour.1 "bad.js" malformedSource
      "Unexpected token (1:10)" rfl
    simpa [malformedSource] using h
  · exact c5_parse_error_behaviour.2 "gone.js" "ENOENT: no such file or directory"

/-! ## The generation client (scripts/doc-agent.js and unnamed/part_002) -/

/-- The observable outcome of one `fetch` of the Gemini endpoint: either the
transport layer throws (message of the thrown error), or a response arrives
with an HTTP status and a body; the body is given already JSON-parsed. -/
inductive AttemptOutcome : Type where
  | exc (msg : String) : AttemptOutcome
  | resp (status : Nat) (body : JSVal) : AttemptOutcome

/-- The observable behaviour of one `generateWithGemini` call: its result
(generated text or the message of the propagated error), how many network
calls it made, and the backoff sleeps it performed, in order and in
milliseconds. -/
structure GenTrace where
  result : Except String JSVal
  fetches : Nat
  sleeps : List Nat
deriving Repr

/-- The optional-chain `result.candidates?.[0]?.content?.parts?.[0]?.text`
shared by both revisions of `generateWithGemini`. -/
def extractText (result : JSVal) : JSVal :=
  optField
    (optIndex (optField (optField (optIndex (getField result "candidates") 0)
      "content") "parts") 0) "text"

namespace DocAgent

/-- `MAX_RETRIES` of `scripts/doc-agent.js`. -/
def MAX_RETRIES : Nat := 3

/-- The backoff delay `1000 * Math.pow(2, attempt)` in milliseconds. -/
def backoffMs (attempt : Nat) : Nat := 1000 * 2 ^ attempt

/-- The message of the error thrown for a non-retryable 4xx status. -/
def clientErrorMsg (status : Nat) : String :=
  s!"API call failed with status {status}. This is a client-side error and will not be retried."

/-- The message of the error thrown when the catch block runs out of
attempts. -/
def exhaustedMsg (m : String) : String :=
  s!"API call failed after {MAX_RETRIES} attempts. Last error: {m}"

/-- The retry loop of `generateWithGemini` in `scripts/doc-agent.js`, from
attempt number `attempt` with `fuel` loop iterations remaining (callers
maintain `fuel = MAX_RETRIES + 1 - attempt`; the loop runs while
`attempt <= MAX_RETRIES`).  Faithful control flow: the `throw` for a
non-retryable 4xx status sits inside the `try`, so it is intercepted by the
loop's own `catch`, which — exactly like a transport exception — either
rethrows `exhaustedMsg` on the last attempt or sleeps and retries. -/
def genLoop (outcomes : Nat → AttemptOutcome) : Nat → Nat → GenTrace
  | _, 0 => { result := .error "API call failed after all retries.", fetches := 0, sleeps := [] }
  | attempt, fuel + 1 =>
    match outcomes attempt with
    | .exc m =>
        if attempt = MAX_RETRIES then
          { result := .error (exhaustedMsg m), fetches := 1, sleeps := [] }
        else
          let t := genLoop outcomes (attempt + 1) fuel
          { result := t.result, fetches := 1 + t.fetches,
            sleeps := backoffMs attempt :: t.sleeps }
    | .resp status body =>
        if 200 ≤ status ∧ status < 300 then
          let text := extractText body
          { result := .ok (if truthy text then text else .vstr ""),
            fetches := 1, sleeps := [] }
        else if 400 ≤ status ∧ status < 500 ∧ status ≠ 429 then
          if attempt = MAX_RETRIES then
            { result := .error (exhaustedMsg (clientErrorMsg status)),
              fetches := 1, sleeps := [] }
          else
            let t := genLoop outcomes (attempt + 1) fuel
            { result := t.result, fetches := 1 + t.fetches,
              sleeps := backoffMs attempt :: t.sleeps }
        else
          let t := genLoop outcomes (attempt + 1) fuel
          { result := t.result, fetches := 1 + t.fetches,
            sleeps := backoffMs attempt :: t.sleeps }

/-- `generateWithGemini` of `scripts/doc-agent.js`: guard on the credential,
then the retry loop over attempts `1..MAX_RETRIES`.  The outcome of the i-th
network call is `outcomes i`. -/
def generateWithGemini (apiKey : String) (outcomes : Nat → AttemptOutcome) : GenTrace :=
  if apiKey = "" then
    { result := .error "GEMINI_API_KEY environment variable not set.",
      fetches := 0, sleeps := [] }
  else genLoop outcomes 1 MAX_RETRIES

end DocAgent

namespace Part002

/-- `generateWithGemini` of `unnamed/part_002`: a single attempt, no loop.
Its `catch` merely logs and rethrows, so a transport exception propagates
unchanged; a non-2xx status throws the status message; a 2xx body without a
truthy generated-text field throws the invalid-response message. -/
def generateWithGemini (apiKey : String) (outcome : AttemptOutcome) : GenTrace :=
  if apiKey = "" then
    { result := .error "GEMINI_API_KEY is not configured.", fetches := 0, sleeps := [] }
  else
    match outcome with
    | .exc m => { result := .error m, fetches := 1, sleeps := [] }
    | .resp status body =>
        if 200 ≤ status ∧ status < 300 then
          let text := extractText body
          if truthy text then { result := .ok text, fetches := 1, sleeps := [] }
          else
            { result := .error "Received an invalid or empty response from the Gemini API.",
              fetches := 1, sleeps := [] }
        else
          { result := .error
              s!"API call failed with status {status}. Check the GitHub Actions log for details.",
            fetches := 1, sleeps := [] }

end Part002

/-- C1 (code-bug evidence): in `scripts/doc-agent.js` the `throw` for a
non-retryable 4xx sits inside the `try`, so the loop's own `catch` intercepts
it.  Evaluating the client on a mock that answers HTTP 400 on every call: it
performs three network calls and two backoff sleeps (2000 ms and 4000 ms) and
finally propagates a retries-exhausted error whose text still promises "will
not be retried" — contradicting the code's own comment ("Don't retry on
client-side errors") and the claimed immediate propagation. -/
theorem c1_client_error_retried_despite_comment :
    DocAgent.generateWithGemini "key" (fun _ => .resp 400 (.vobj [])) =
      { result := .error "API call failed after 3 attempts. Last error: API call failed with status 400. This is a client-side error and will not be retried.",
        fetches := 3, sleeps := [2000, 4000] } := by rfl

/-- C3 counterexample: in the `scripts/doc-agent.js` revision a 2xx response
whose body lacks the generated-text path is returned as a successful empty
string (`result.candidates?.[0]?.content?.parts?.[0]?.text || ''`), not
surfaced as a failure. -/
theorem c3_empty_success_counterexample :
    DocAgent.generateWithGemini "key" (fun _ => .resp 200 (.vobj [])) =
      { result := .ok (.vstr ""), fetches := 1, sleeps := [] } := by rfl

/-- C3 amended: a 2xx response without a truthy generated-text field is never
retried (one network call, no sleeps) in either revision; the `part_002`
revision classifies it as an invalid-response failure, while the
`doc-agent.js` revision instead returns the empty string as a successful
result. -/
theorem c3_invalid_response_behaviour :
    ∀ (apiKey : String) (body : JSVal), apiKey ≠ "" →
      truthy (extractText body) = false →
      Part002.generateWithGemini apiKey (.resp 200 body) =
        { result := .error "Received an invalid or empty response from the Gemini API.",
          fetches := 1, sleeps := [] } ∧
      DocAgent.generateWithGemini apiKey (fun _ => .resp 200 body) =
        { result := .ok (.vstr ""), fetches := 1, sleeps := [] } := by
  intro apiKey body hk ht
  constructor
  · simp [Part002.generateWithGemini, hk, ht]
  · simp [DocAgent.generateWithGemini, hk, DocAgent.MAX_RETRIES, DocAgent.genLoop, ht]

/-- Witness for C3 (amended) at a concrete key and an empty response body. -/
theorem c3_invalid_response_behaviour_witness :
    Part002.generateWithGemini "key" (.resp 200 (.vobj [("candidates", .varr [])])) =
      { result := .error "Received an invalid or empty response from the Gemini API.",
        fetches := 1, sleeps := [] } ∧
    DocAgent.generateWithGemini "key" (fun _ => .resp 200 (.vobj [("candidates", .varr [])])) =
      { result := .ok (.vstr ""), fetches := 1, sleeps := [] } :=
  c3_invalid_response_behaviour "key" (.vobj [("candidates", .varr [])])
    (by decide) (by decide)

/-- C6 counterexample: when every attempt answers a transient status, the
exhausted run fails with the cause-independent constant message
"API call failed after all retries." — two different causes (429 versus 500)
produce identical traces, so the propagated failure cannot carry the last
observed cause; the final transient attempt also sleeps once more (8000 ms)
before exhaustion. -/
theorem c6_exhaustion_without_cause_counterexample :
    DocAgent.generateWithGemini "key" (fun _ => .resp 429 (.vobj [])) =
      { result := .error "API call failed after all retries.",
        fetches := 3, sleeps := [2000, 4000, 8000] } ∧
    DocAgent.generateWithGemini "key" (fun _ => .resp 500 (.vobj [])) =
      DocAgent.generateWithGemini "key" (fun _ => .resp 429 (.vobj [])) := by
  exact ⟨rfl, rfl⟩

/-- C6 amended: transient outcomes (status 429 or ≥ 500, or a transport
exception) are retried with a backoff sleep of 1000·2^attempt ms before each
retry, attempts being numbered 1..3: two transient statuses followed by a
2xx succeed on the third call with sleeps [2000, 4000]; three transport
exceptions exhaust the budget and propagate a failure carrying the last
exception message; three transient statuses exhaust the budget after a final
extra sleep (8000 ms) and propagate the generic retries-exhausted failure,
which does not carry the last observed cause. -/
theorem c6_transient_retry_schedule :
    (∀ (apiKey : String) (outcomes : Nat → AttemptOutcome) (s1 s2 : Nat)
        (b1 b2 body : JSVal), apiKey ≠ "" →
        outcomes 1 = .resp s1 b1 → outcomes 2 = .resp s2 b2 →
        outcomes 3 = .resp 200 body →
        (500 ≤ s1 ∨ s1 = 429) → (500 ≤ s2 ∨ s2 = 429) →
        truthy (extractText body) = true →
        DocAgent.generateWithGemini apiKey outcomes =
          { result := .ok (extractText body), fetches := 3, sleeps := [2000, 4000] }) ∧
    (∀ (apiKey : String) (outcomes : Nat → AttemptOutcome) (m1 m2 m3 : String),
        apiKey ≠ "" →
        outcomes 1 = .exc m1 → outcomes 2 = .exc m2 → outcomes 3 = .exc m3 →
        DocAgent.generateWithGemini apiKey outcomes =
          { result := .error (DocAgent.exhaustedMsg m3), fetches := 3,
            sleeps := [2000, 4000] }) ∧
    (∀ (apiKey : String) (outcomes : Nat → AttemptOutcome) (s1 s2 s3 : Nat)
        (b1 b2 b3 : JSVal), apiKey ≠ "" →
        outcomes 1 = .resp s1 b1 → outcomes 2 = .resp s2 b2 →
        outcomes 3 = .resp s3 b3 →
        (500 ≤ s1 ∨ s1 = 429) → (500 ≤ s2 ∨ s2 = 429) → (500 ≤ s3 ∨ s3 = 429) →
        DocAgent.generateWithGemini apiKey outcomes =
          { result := .error "API call failed after all retries.", fetches := 3,
            sleeps := [2000, 4000, 8000] }) := by
  refine ⟨?_, ?_, ?_⟩
  · intro apiKey outcomes s1 s2 b1 b2 body hk h1 h2 h3 hs1 hs2 ht
    have n1 : ¬(200 ≤ s1 ∧ s1 < 300) := by rcases hs1 with h | h <;> omega
    have m1 : ¬(400 ≤ s1 ∧ s1 < 500 ∧ s1 ≠ 429) := by rcases hs1 with h | h <;> omega
    have n2 : ¬(200 ≤ s2 ∧ s2 < 300) := by rcases hs2 with h | h <;> omega
    have m2 : ¬(400 ≤ s2 ∧ s2 < 500 ∧ s2 ≠ 429) := by rcases hs2 with h | h <;> omega
    simp [DocAgent.generateWithGemini, hk, DocAgent.MAX_RETRIES, DocAgent.genLoop,
      h1, h2, h3, n1, m1, n2, m2, DocAgent.backoffMs, ht]
  · intro apiKey outcomes m1 m2 m3 hk h1 h2 h3
    simp [DocAgent.generateWithGemini, hk, DocAgent.MAX_RETRIES, DocAgent.genLoop,
      h1, h2, h3, DocAgent.backoffMs]
  · intro apiKey outcomes s1 s2 s3 b1 b2 b3 hk h1 h2 h3 hs1 hs2 hs3
    have n1 : ¬(200 ≤ s1 ∧ s1 < 300) := by rcases hs1 with h | h <;> omega
    have m1 : ¬(400 ≤ s1 ∧ s1 < 500 ∧ s1 ≠ 429) := by rcases hs1 with h | h <;> omega
    have n2 : ¬(200 ≤ s2 ∧ s2 < 300) := by rcases hs2 with h | h <;> omega
    have m2 : ¬(400 ≤ s2 ∧ s2 < 500 ∧ s2 ≠ 429) := by rcases hs2 with h | h <;> omega
    have n3 : ¬(200 ≤ s3 ∧ s3 < 300) := by rcases hs3 with h | h <;> omega
    have m3 : ¬(400 ≤ s3 ∧ s3 < 500 ∧ s3 ≠ 429) := by rcases hs3 with h | h <;> omega
    simp [DocAgent.generateWithGemini, hk, DocAgent.MAX_RETRIES, DocAgent.genLoop,
      h1, h2, h3, n1, m1, n2, m2, n3, m3, DocAgent.backoffMs]

/-- A response body exposing generated text at
`candidates[0].content.parts[0].text`. -/
def demoGoodBody : JSVal :=
  .vobj [("candidates", .varr
    [.vobj [("content", .vobj [("parts", .varr
      [.vobj [("text", .vstr "Generated docs.")]])])]])]

/-- The mock outcome schedule 429, 429, 200 of the specified retry test. -/
def demoRetryOutcomes : Nat → AttemptOutcome :=
  fun i => if i = 3 then .resp 200 demoGoodBody else .resp 429 (.vobj [])

/-- Witness for C6 (amended): the 429-429-200 mock succeeds on the third
attempt with the exponential backoff schedule, and an all-exceptions mock
carries the last exception message. -/
theorem c6_transient_retry_schedule_witness :
    DocAgent.generateWithGemini "key" demoRetryOutcomes =
      { result := .ok (.vstr "Generated docs."), fetches := 3,
        sleeps := [2000, 4000] } ∧
    DocAgent.generateWithGemini "key" (fun _ => .exc "fetch failed") =
      { result := .error (DocAgent.exhaustedMsg "fetch failed"), fetches := 3,
        sleeps := [2000, 4000] } := by
  constructor
  · have h := c6_transient_retry_schedule.1 "key" demoRetryOutcomes 429 429
      (.vobj []) (.vobj []) demoGoodBody (by decide) rfl rfl
      rfl (Or.inr rfl) (Or.inr rfl) (by decide)
    simpa [demoGoodBody, extractText, optField, optIndex, getField, getIndex,
      isNullish, List.lookup] using h
  · exact c6_transient_retry_schedule.2.1 "key" (fun _ => .exc "fetch failed")
      "fetch failed" "fetch failed" "fetch failed" (by decide) rfl rfl rfl

/-! ## ChangeSelector (getChangedFiles in both revisions) -/

/-- JavaScript `String.prototype.startsWith`, computed on the character
sequence (ASCII paths are unaffected by the code-unit representation). -/
def jsStartsWith (s pre : String) : Bool := pre.data.isPrefixOf s.data

/-- JavaScript `String.prototype.endsWith`, computed on the character
sequence. -/
def jsEndsWith (s suf : String) : Bool := suf.data.isSuffixOf s.data

/-- The observable surface of the git collaborator consumed by
`getChangedFiles`: whether the tree is a repository (`checkIsRepo`), the
commit count reported by `git.log(\x7b n: 2 \x7d)` or the error it throws, and
the file list of `git.diffSummary(['HEAD~1', 'HEAD'])` (already projected to
the `.file` names) or the error it throws. -/
structure GitEnv where
  isRepo : Bool
  logTotal : Except String Nat
  diffFiles : Except String (List String)

/-- The result of one `getChangedFiles` run: the returned file list and the
console warnings/errors emitted on the way. -/
structure ChangedFilesResult where
  files : List String
  warnings : List String
deriving Repr, DecidableEq

namespace Part002

/-- `getChangedFiles` of `unnamed/part_002`.  `globFiles` is the result of
the external `glob(SOURCE_CODE_PATTERN)` fallback query.  Not a repository →
full fallback set; fewer than 2 commits → full fallback set; otherwise the
diff files filtered by `startsWith 'src/' && endsWith '.js'`; a log or diff
failure is caught and yields the empty list with a logged error. -/
def getChangedFiles (env : GitEnv) (globFiles : List String) : ChangedFilesResult :=
  if !env.isRepo then
    { files := globFiles, warnings := ["Not a git repository. Scanning all files."] }
  else
    match env.logTotal with
    | .error _ =>
        { files := [], warnings := ["Error getting changed files from git:"] }
    | .ok total =>
        if total < 2 then
          { files := globFiles,
            warnings := ["Only one commit found. Documenting all files in the repository."] }
        else
          match env.diffFiles with
          | .error _ =>
              { files := [], warnings := ["Error getting changed files from git:"] }
          | .ok fs =>
              { files := fs.filter (fun f => jsStartsWith f "src/" && jsEndsWith f ".js"),
                warnings := [] }

end Part002

namespace DocAgent

/-- `getChangedFiles` of `scripts/doc-agent.js`.  No repository check; the
`catch` around log and diff falls back to the full glob set (via
`getAllSourceFiles`) instead of returning the empty list. -/
def getChangedFiles (env : GitEnv) (globFiles : List String) : ChangedFilesResult :=
  match env.logTotal with
  | .error _ =>
      { files := globFiles,
        warnings := ["Error getting changed files, falling back to all files:"] }
  | .ok total =>
      if total < 2 then
        { files := globFiles,
          warnings := ["Only one commit found. Analyzing all files in the project."] }
      else
        match env.diffFiles with
        | .error _ =>
            { files := globFiles,
              warnings := ["Error getting changed files, falling back to all files:"] }
        | .ok fs =>
            { files := fs.filter (fun f => jsEndsWith f ".js" && jsStartsWith f "src/"),
              warnings := [] }

end DocAgent

/-- C4 counterexample: in the `scripts/doc-agent.js` revision a failing diff
query does not yield the empty set — it falls back to the full fallback file
set, so that run would document everything rather than nothing. -/
theorem c4_diff_failure_counterexample :
    DocAgent.getChangedFiles
      { isRepo := true, logTotal := .ok 2, diffFiles := .error "git diff failed" }
      ["src/a.js", "src/b.js"] =
      { files := ["src/a.js", "src/b.js"],
        warnings := ["Error getting changed files, falling back to all files:"] } ∧
    ¬ (DocAgent.getChangedFiles
        { isRepo := true, logTotal := .ok 2, diffFiles := .error "git diff failed" }
        ["src/a.js", "src/b.js"]).files = [] := by
  exact ⟨rfl, by decide⟩

/-- C4 amended: the `part_002` revision implements the full specified state
machine — not a repository → full fallback set; fewer than 2 commits → full
fallback set; at least 2 commits → exactly the diff files passing the fixed
`src/` prefix and `.js` extension filter with no warning; a failing log or
diff query → the empty set with a logged failure.  The `doc-agent.js`
revision omits the repository check and instead returns the full fallback
set when the log or diff query fails. -/
theorem c4_change_selector_state_machine :
    (∀ (env : GitEnv) (globFiles : List String),
        (env.isRepo = false →
          Part002.getChangedFiles env globFiles =
            { files := globFiles,
              warnings := ["Not a git repository. Scanning all files."] }) ∧
        (∀ total, env.isRepo = true → env.logTotal = .ok total → total < 2 →
          (Part002.getChangedFiles env globFiles).files = globFiles) ∧
        (∀ total fs, env.isRepo = true → env.logTotal = .ok total → 2 ≤ total →
          env.diffFiles = .ok fs →
          Part002.getChangedFiles env globFiles =
            { files := fs.filter (fun f => jsStartsWith f "src/" && jsEndsWith f ".js"),
              warnings := [] }) ∧
        (∀ total e, env.isRepo = true → env.logTotal = .ok total → 2 ≤ total →
          env.diffFiles = .error e →
          Part002.getChangedFiles env globFiles =
            { files := [], warnings := ["Error getting changed files from git:"] }) ∧
        (∀ e, env.isRepo = true → env.logTotal = .error e →
          Part002.getChangedFiles env globFiles =
            { files := [], warnings := ["Error getting changed files from git:"] })) ∧
    (∀ (env : GitEnv) (globFiles : List String) (total : Nat) (e : String),
        env.logTotal = .ok total → 2 ≤ total → env.diffFiles = .error e →
        (DocAgent.getChangedFiles env globFiles).files = globFiles) ∧
    (∀ (env : GitEnv) (globFiles : List String) (e : String),
        env.logTotal = .error e →
        DocAgent.getChangedFiles env globFiles =
          { files := globFiles,
            warnings := ["Error getting changed files, falling back to all files:"] }) := by
  refine ⟨?_, ?_, ?_⟩
  · intro env globFiles
    refine ⟨?_, ?_, ?_, ?_, ?_⟩
    · intro h
      simp [Part002.getChangedFiles, h]
    · intro total hr hl ht
      simp [Part002.getChangedFiles, hr, hl, ht]
    · intro total fs hr hl ht hd
      simp [Part002.getChangedFiles, hr, hl, Nat.not_lt.mpr ht, hd]
    · intro total e hr hl ht hd
      simp [Part002.getChangedFiles, hr, hl, Nat.not_lt.mpr ht, hd]
    · intro e hr hl
      simp [Part002.getChangedFiles, hr, hl]
  · intro env globFiles total e hl ht hd
    simp [DocAgent.getChangedFiles, hl, Nat.not_lt.mpr ht, hd]
  · intro env globFiles e hl
    simp [DocAgent.getChangedFiles, hl]

/-- Witness for C4 (amended) at concrete git environments: the five
`part_002` states (including a failing log query) and the `doc-agent.js`
fallbacks on a failing diff query and on a failing log query. -/
theorem c4_change_selector_state_machine_witness :
    Part002.getChangedFiles
      { isRepo := false, logTotal := .ok 0, diffFiles := .ok [] } ["src/a.js"] =
      { files := ["src/a.js"],
        warnings := ["Not a git repository. Scanning all files."] } ∧
    (Part002.getChangedFiles
      { isRepo := true, logTotal := .ok 1, diffFiles := .ok [] } ["src/a.js"]).files =
      ["src/a.js"] ∧
    Part002.getChangedFiles
      { isRepo := true, logTotal := .ok 2,
        diffFiles := .ok ["src/a.js", "README.md", "src/style.css", "lib/b.js"] }
      ["src/a.js"] =
      { files := ["src/a.js"], warnings := [] } ∧
    Part002.getChangedFiles
      { isRepo := true, logTotal := .ok 2, diffFiles := .error "boom" } ["src/a.js"] =
      { files := [], warnings := ["Error getting changed files from git:"] } ∧
    Part002.getChangedFiles
      { isRepo := true, logTotal := .error "log boom", diffFiles := .ok [] }
      ["src/a.js"] =
      { files := [], warnings := ["Error getting changed files from git:"] } ∧
    (DocAgent.getChangedFiles
      { isRepo := true, logTotal := .ok 2, diffFiles := .error "boom" }
      ["src/a.js"]).files = ["src/a.js"] ∧
    DocAgent.getChangedFiles
      { isRepo := true, logTotal := .error "log boom", diffFiles := .ok [] }
      ["src/a.js"] =
      { files := ["src/a.js"],
        warnings := ["Error getting changed files, falling back to all files:"] } := by
  refine ⟨?_, ?_, ?_, ?_, ?_, ?_, ?_⟩
  · exact (c4_change_selector_state_machine.1 _ ["src/a.js"]).1 rfl
  · exact (c4_change_selector_state_machine.1 _ ["src/a.js"]).2.1 1 rfl rfl
      (by decide)
  · have h := (c4_change_selector_state_machine.1
      { isRepo := true, logTotal := .ok 2,
        diffFiles := .ok ["src/a.js", "README.md", "src/style.css", "lib/b.js"] }
      ["src/a.js"]).2.2.1 2 ["src/a.js", "README.md", "src/style.css", "lib/b.js"]
      rfl rfl (by decide) rfl
    simpa using h
  · exact (c4_change_selector_state_machine.1 _ ["src/a.js"]).2.2.2.1 2 "boom"
      rfl rfl (by decide) rfl
  · exact (c4_change_selector_state_machine.1 _ ["src/a.js"]).2.2.2.2 "log boom"
      rfl rfl
  · exact c4_change_selector_state_machine.2.1 _ ["src/a.js"] 2 "boom" rfl
      (by decide) rfl
  · exact c4_change_selector_state_machine.2.2 _ ["src/a.js"] "log boom" rfl

/-! ## DocumentPatcher (updateDocsFile in both revisions)

Documents and markers are modelled as character lists; `String.indexOf` is
the first index at which the pattern occurs (`none` for JavaScript's `-1`),
and `substring` is `take`/`drop`. -/

/-- `haystack.indexOf(needle)`: index of the first occurrence, if any. -/
def indexOf? (s pat : List Char) : Option Nat :=
  if pat.isPrefixOf s then some 0
  else
    match s with
    | [] => none
    | _ :: t => (indexOf? t pat).map (· + 1)

/-- An index returned by `indexOf?` is at most the length of the string. -/
theorem indexOf?_le_length {s pat : List Char} {i : Nat}
    (h : indexOf? s pat = some i) : i ≤ s.length := by
  induction s generalizing i with
  | nil =>
    rw [indexOf?] at h
    split at h
    · simp at h
      omega
    · simp at h
  | cons c t ih =>
    rw [indexOf?] at h
    split at h
    · simp at h
      omega
    · simp only [Option.map_eq_some'] at h
      obtain ⟨j, hj, rfl⟩ := h
      have := ih hj
      simp
      omega

/-- The pattern occurs at the index returned by `indexOf?`. -/
theorem indexOf?_occurrence {s pat : List Char} {i : Nat}
    (h : indexOf? s pat = some i) : pat <+: s.drop i := by
  induction s generalizing i with
  | nil =>
    rw [indexOf?] at h
    split at h
    · rename_i hp
      simp at h
      subst h
      simpa using List.isPrefixOf_iff_prefix.mp hp
    · simp at h
  | cons c t ih =>
    rw [indexOf?] at h
    split at h
    · rename_i hp
      simp at h
      subst h
      simpa using List.isPrefixOf_iff_prefix.mp hp
    · simp only [Option.map_eq_some'] at h
      obtain ⟨j, hj, rfl⟩ := h
      simpa using ih hj

/-- No occurrence of the pattern starts before the index `indexOf?`
returns. -/
theorem indexOf?_minimal {s pat : List Char} {i : Nat}
    (h : indexOf? s pat = some i) : ∀ j, j < i → ¬ pat <+: s.drop j := by
  induction s generalizing i with
  | nil =>
    rw [indexOf?] at h
    split at h
    · simp at h
      omega
    · simp at h
  | cons c t ih =>
    rw [indexOf?] at h
    split at h
    · simp at h
      omega
    · rename_i hnp
      simp only [Option.map_eq_some'] at h
      obtain ⟨j0, hj0, rfl⟩ := h
      intro j hj
      cases j with
      | zero =>
        simp only [List.drop_zero]
        intro hp
        exact hnp (List.isPrefixOf_iff_prefix.mpr hp)
      | succ k =>
        simpa using ih hj0 k (by omega)

/-- If the pattern occurs at `j` then `indexOf?` succeeds with an index at
most `j`. -/
theorem indexOf?_complete {s pat : List Char} {j : Nat} (h : pat <+: s.drop j) :
    ∃ i, indexOf? s pat = some i ∧ i ≤ j := by
  induction s generalizing j with
  | nil =>
    refine ⟨0, ?_, Nat.zero_le j⟩
    rw [indexOf?]
    simp only [List.drop_nil] at h
    rw [if_pos (List.isPrefixOf_iff_prefix.mpr (by simpa using h))]
  | cons c t ih =>
    by_cases hp : pat.isPrefixOf (c :: t)
    · exact ⟨0, by rw [indexOf?, if_pos hp], Nat.zero_le j⟩
    · cases j with
      | zero =>
        simp only [List.drop_zero] at h
        exact absurd (List.isPrefixOf_iff_prefix.mpr h) hp
      | succ k =>
        obtain ⟨i, hi, hik⟩ := ih (by simpa using h)
        refine ⟨i + 1, ?_, by omega⟩
        rw [indexOf?, if_neg hp, hi]
        rfl

/-- Characterization of `indexOf?`: it returns exactly the first index at
which the pattern occurs. -/
theorem indexOf?_eq_some_iff {s pat : List Char} {i : Nat} :
    indexOf? s pat = some i ↔
      pat <+: s.drop i ∧ ∀ j, j < i → ¬ pat <+: s.drop j := by
  constructor
  · intro h
    exact ⟨indexOf?_occurrence h, indexOf?_minimal h⟩
  · rintro ⟨hocc, hmin⟩
    obtain ⟨k, hk, hki⟩ := indexOf?_complete hocc
    rcases Nat.lt_or_ge k i with hlt | hge
    · exact absurd (indexOf?_occurrence hk) (hmin k hlt)
    · have : k = i := by omega
      exact this ▸ hk

/-- The start sentinel  `<!-- DOCS:START:<name> -->`  for a function name. -/
def startMarkerOf (name : List Char) : List Char :=
  "<!-- DOCS:START:".data ++ name ++ " -->".data

/-- The end sentinel  `<!-- DOCS:END:<name> -->`  for a function name. -/
def endMarkerOf (name : List Char) : List Char :=
  "<!-- DOCS:END:".data ++ name ++ " -->".data

/-- JavaScript whitespace test for the characters `String.prototype.trim`
strips in the analyzed inputs (space, newline, tab, carriage return). -/
def wsChar (c : Char) : Bool :=
  c = ' ' || c = Char.ofNat 10 || c = Char.ofNat 9 || c = Char.ofNat 13

/-- `String.prototype.trim` on a character list. -/
def jsTrim (l : List Char) : List Char :=
  ((l.dropWhile wsChar).reverse.dropWhile wsChar).reverse

namespace DocAgent

/-- `updateDocsFile` of `scripts/doc-agent.js`, on the document text: find
the first occurrence of each sentinel; if either is absent, warn and leave
the document unmodified (`none`); otherwise splice
`before ++ "\n" ++ newDocs ++ "\n" ++ after`, where `before` is the prefix
through the first start sentinel and `after` the suffix from the first end
sentinel. -/
def updateDocsFile (functionName newDocsContent fileContent : List Char) :
    Option (List Char) :=
  let startMarker := startMarkerOf functionName
  let endMarker := endMarkerOf functionName
  match indexOf? fileContent startMarker, indexOf? fileContent endMarker with
  | some startIndex, some endIndex =>
      some (fileContent.take (startIndex + startMarker.length) ++
        (newlineChar :: newDocsContent ++ [newlineChar]) ++
        fileContent.drop endIndex)
  | _, _ => none

end DocAgent

namespace Part002

/-- `updateDocsFile` of `unnamed/part_002`: identical location logic, but the
replacement content is trimmed and wrapped in blank lines:
`before ++ "\n\n" ++ newDocs.trim() ++ "\n\n" ++ after`. -/
def updateDocsFile (functionName newDocsContent fileContent : List Char) :
    Option (List Char) :=
  let startMarker := startMarkerOf functionName
  let endMarker := endMarkerOf functionName
  match indexOf? fileContent startMarker, indexOf? fileContent endMarker with
  | some startIndex, some endIndex =>
      some (fileContent.take (startIndex + startMarker.length) ++
        (newlineChar :: newlineChar :: jsTrim newDocsContent ++
          [newlineChar, newlineChar]) ++
        fileContent.drop endIndex)
  | _, _ => none

end Part002

/-- C10: when both sentinels occur (in particular when several same-named
sentinel pairs are present), both revisions of the DocumentPatcher operate on
the first occurrence of each sentinel and report success: the indices used
are exactly the first occurrences, and the produced document is the prefix
through the first start sentinel, the wrapped replacement, and the suffix
from the first end sentinel verbatim — that suffix contains every later
same-named sentinel pair, which is therefore left untouched. -/
theorem c10_patch_uses_first_occurrences :
    ∀ (name d c : List Char) (si ei : Nat),
      indexOf? c (startMarkerOf name) = some si →
      indexOf? c (endMarkerOf name) = some ei →
      (startMarkerOf name <+: c.drop si ∧
        ∀ j, j < si → ¬ startMarkerOf name <+: c.drop j) ∧
      (endMarkerOf name <+: c.drop ei ∧
        ∀ j, j < ei → ¬ endMarkerOf name <+: c.drop j) ∧
      DocAgent.updateDocsFile name d c =
        some (c.take (si + (startMarkerOf name).length) ++
          (newlineChar :: d ++ [newlineChar]) ++ c.drop ei) ∧
      Part002.updateDocsFile name d c =
        some (c.take (si + (startMarkerOf name).length) ++
          (newlineChar :: newlineChar :: jsTrim d ++ [newlineChar, newlineChar]) ++
          c.drop ei) := by
  intro name d c si ei hs he
  refine ⟨⟨indexOf?_occurrence hs, indexOf?_minimal hs⟩,
          ⟨indexOf?_occurrence he, indexOf?_minimal he⟩, ?_, ?_⟩
  · simp [DocAgent.updateDocsFile, hs, he]
  · simp [Part002.updateDocsFile, hs, he]

/-- A document with two same-named sentinel pairs for `f`. -/
def demoDoubleDoc : List Char :=
  ("<!-- DOCS:START:f -->old<!-- DOCS:END:f --> text " ++
   "<!-- DOCS:START:f -->old2<!-- DOCS:END:f -->").data

/-- Witness for C10 at the concrete two-pair document: the patch rewrites the
first region and the entire text from the first end sentinel on — including
the complete second pair — reappears verbatim. -/
theorem c10_patch_uses_first_occurrences_witness :
    DocAgent.updateDocsFile "f".data "new".data demoDoubleDoc =
      some (("<!-- DOCS:START:f -->" ++ "\n" ++ "new" ++ "\n" ++
        "<!-- DOCS:END:f --> text " ++
        "<!-- DOCS:START:f -->old2<!-- DOCS:END:f -->").data) := by
  have h := (c10_patch_uses_first_occurrences "f".data "new".data demoDoubleDoc
    0 24 (by decide) (by decide)).2.2.1
  rw [h]
  decide

/-- A degenerate document in which the end sentinel for `f` precedes the
start sentinel. -/
def demoInvertedDoc : List Char :=
  ("<!-- DOCS:END:f --><!-- DOCS:START:f -->").data

/-- C9 counterexample: on `demoInvertedDoc` both sentinels are found (end at
index 0, start at index 19), the patch succeeds — but the document does not
decompose around a region lying between the start and the end sentinel, and
the output duplicates the whole document, so text outside any located region
is altered. -/
theorem c9_frame_counterexample :
    indexOf? demoInvertedDoc (startMarkerOf "f".data) = some 19 ∧
    indexOf? demoInvertedDoc (endMarkerOf "f".data) = some 0 ∧
    DocAgent.updateDocsFile "f".data "X".data demoInvertedDoc =
      some (demoInvertedDoc ++ (newlineChar :: "X".data ++ [newlineChar]) ++
        demoInvertedDoc) ∧
    ¬ ∃ between : List Char,
        demoInvertedDoc =
          demoInvertedDoc.take (19 + (startMarkerOf "f".data).length) ++
          between ++ demoInvertedDoc.drop 0 := by
  refine ⟨by decide, by decide, by decide, ?_⟩
  rintro ⟨b, hb⟩
  have hlen := congrArg List.length hb
  have h40 : demoInvertedDoc.length = 40 := by decide
  have hL : (startMarkerOf "f".data).length = 21 := by decide
  rw [List.length_append, List.length_append, List.length_take,
    List.length_drop, h40, hL] at hlen
  omega

/-- C9 amended: provided the first start-sentinel occurrence ends at or
before the first end-sentinel occurrence (the spec's marker-region
invariant), the document decomposes as
`prefix-through-start ++ interior ++ suffix-from-end`, and on success both
revisions produce exactly that prefix, the wrapped replacement, and that
suffix — no text outside the located region changes.  When either sentinel is
missing, both revisions return the document unmodified (with a warning). -/
theorem c9_patch_frame :
    (∀ (name d c : List Char) (si ei : Nat),
        indexOf? c (startMarkerOf name) = some si →
        indexOf? c (endMarkerOf name) = some ei →
        si + (startMarkerOf name).length ≤ ei →
        c = c.take (si + (startMarkerOf name).length) ++
            ((c.drop (si + (startMarkerOf name).length)).take
              (ei - (si + (startMarkerOf name).length))) ++
            c.drop ei ∧
        DocAgent.updateDocsFile name d c =
          some (c.take (si + (startMarkerOf name).length) ++
            (newlineChar :: d ++ [newlineChar]) ++ c.drop ei) ∧
        Part002.updateDocsFile name d c =
          some (c.take (si + (startMarkerOf name).length) ++
            (newlineChar :: newlineChar :: jsTrim d ++
              [newlineChar, newlineChar]) ++ c.drop ei)) ∧
    (∀ (name d c : List Char),
        indexOf? c (startMarkerOf name) = none →
        DocAgent.updateDocsFile name d c = none ∧
        Part002.updateDocsFile name d c = none) ∧
    (∀ (name d c : List Char),
        indexOf? c (endMarkerOf name) = none →
        DocAgent.updateDocsFile name d c = none ∧
        Part002.updateDocsFile name d c = none) := by
  refine ⟨?_, ?_, ?_⟩
  · intro name d c si ei hs he horder
    refine ⟨?_, by simp [DocAgent.updateDocsFile, hs, he],
      by simp [Part002.updateDocsFile, hs, he]⟩
    have h2 : (c.drop (si + (startMarkerOf name).length)).drop
        (ei - (si + (startMarkerOf name).length)) = c.drop ei := by
      rw [List.drop_drop]
      congr 1
      omega
    have h1 : (c.drop (si + (startMarkerOf name).length)).take
          (ei - (si + (startMarkerOf name).length)) ++ c.drop ei =
        c.drop (si + (startMarkerOf name).length) := by
      rw [← h2, List.take_append_drop]
    calc c = c.take (si + (startMarkerOf name).length) ++
          c.drop (si + (startMarkerOf name).length) :=
        (List.take_append_drop _ c).symm
      _ = c.take (si + (startMarkerOf name).length) ++
          ((c.drop (si + (startMarkerOf name).length)).take
            (ei - (si + (startMarkerOf name).length)) ++ c.drop ei) := by
        rw [h1]
      _ = _ := by rw [List.append_assoc]
  · intro name d c hs
    constructor
    · simp [DocAgent.updateDocsFile, hs]
    · simp [Part002.updateDocsFile, hs]
  · intro name d c he
    constructor
    · rcases hs2 : indexOf? c (startMarkerOf name) with _ | i <;>
        simp [DocAgent.updateDocsFile, hs2, he]
    · rcases hs2 : indexOf? c (startMarkerOf name) with _ | i <;>
        simp [Part002.updateDocsFile, hs2, he]

/-- A well-formed document: heading, one `f` region, trailing text. -/
def demoWellDoc : List Char :=
  ("# Docs\n<!-- DOCS:START:f -->\nold\n<!-- DOCS:END:f -->\ntail").data

/-- A document with no sentinels at all. -/
def demoNoMarkerDoc : List Char := ("# Docs with no markers").data

/-- Witness for C9 (amended) at the concrete well-formed document (start at
index 7, end at index 33) and at a document without markers. -/
theorem c9_patch_frame_witness :
    (demoWellDoc = demoWellDoc.take 28 ++ (demoWellDoc.drop 28).take 5 ++
        demoWellDoc.drop 33 ∧
      DocAgent.updateDocsFile "f".data "new".data demoWellDoc =
        some (demoWellDoc.take 28 ++
          (newlineChar :: "new".data ++ [newlineChar]) ++ demoWellDoc.drop 33)) ∧
    DocAgent.updateDocsFile "f".data "new".data demoNoMarkerDoc = none ∧
    Part002.updateDocsFile "f".data "new".data demoNoMarkerDoc = none := by
  have h := c9_patch_frame.1 "f".data "new".data demoWellDoc 7 33
    (by decide) (by decide) (by decide)
  have h2 := c9_patch_frame.2.1 "f".data "new".data demoNoMarkerDoc (by decide)
  exact ⟨⟨h.1, h.2.1⟩, h2.1, h2.2⟩

/-- A prefix of `A ++ B` that fits inside `A` is a prefix of `A`. -/
theorem prefix_of_prefix_append {p A B : List Char} (h : p <+: A ++ B)
    (hl : p.length ≤ A.length) : p <+: A := by
  have h1 : p = (A ++ B).take p.length := List.prefix_iff_eq_take.mp h
  have h2 : (A ++ B).take p.length = A.take p.length :=
    List.take_append_of_le_length hl
  exact List.prefix_iff_eq_take.mpr (h1.trans h2)

/-- A prefix of a `take` is a prefix of the whole list. -/
theorem prefix_of_prefix_take {p l : List Char} {n : Nat}
    (h : p <+: l.take n) : p <+: l :=
  h.trans (List.take_prefix n l)

/-- An occurrence inside the left part of an append is an occurrence in that
part. -/
theorem prefix_drop_of_prefix_append_drop {p A B : List Char} {j : Nat}
    (h : p <+: (A ++ B).drop j) (hfit : j + p.length ≤ A.length) :
    p <+: A.drop j := by
  have hj : j ≤ A.length := by omega
  rw [List.drop_append_of_le_length hj] at h
  exact prefix_of_prefix_append h (by simp; omega)

/-- An occurrence inside the copied prefix `c.take K` of a spliced document
is an occurrence in the original document. -/
theorem occurrence_in_splice {p c tail : List Char} {K j : Nat}
    (h : p <+: (c.take K ++ tail).drop j) (hfit : j + p.length ≤ K)
    (hK : K ≤ c.length) : p <+: c.drop j := by
  have hlenP : (c.take K).length = K := by simp [hK]
  have h1 : p <+: (c.take K).drop j :=
    prefix_drop_of_prefix_append_drop h (by omega)
  rw [List.drop_take] at h1
  exact prefix_of_prefix_take h1

/-- If a pattern occurs at position `j` of `l` and some position `p` of `l`
inside the matched window holds a newline, the pattern contains a newline. -/
theorem newline_mem_of_prefix_drop {em l : List Char} {j p : Nat}
    (hpre : em <+: l.drop j) (hj : j ≤ p) (hlt : p < j + em.length)
    (hc : l[p]? = some newlineChar) : newlineChar ∈ em := by
  have hidx : p - j < em.length := by omega
  obtain ⟨hp, hval⟩ := List.getElem?_eq_some_iff.mp hc
  have hidx2 : p - j < (l.drop j).length := by simp; omega
  have h1 : em[p - j] = (l.drop j)[p - j] := hpre.getElem hidx
  have hb : j + (p - j) < l.length := by omega
  have h2 : (l.drop j)[p - j] = l[j + (p - j)] := List.getElem_drop l
  have h5 : some (l[j + (p - j)]) = some (l[p]) := by
    rw [← List.getElem?_eq_getElem hb, ← List.getElem?_eq_getElem hp]
    congr 1
    omega
  have h6 : em[p - j] = newlineChar :=
    (h1.trans h2).trans ((Option.some.inj h5).trans hval)
  exact h6 ▸ List.getElem_mem hidx
/-- After splicing, the first occurrence of the start sentinel is unchanged:
it still sits at its original index, inside the copied prefix. -/
theorem indexOf?_splice_start {name c : List Char} {si : Nat} (mid tail : List Char)
    (hs : indexOf? c (startMarkerOf name) = some si) :
    indexOf? (c.take (si + (startMarkerOf name).length) ++ mid ++ tail)
      (startMarkerOf name) = some si := by
  have hsi_le : si ≤ c.length := indexOf?_le_length hs
  have hocc : startMarkerOf name <+: c.drop si := indexOf?_occurrence hs
  have hsm_len : (startMarkerOf name).length ≤ c.length - si := by
    have := hocc.length_le
    simpa using this
  have hK : si + (startMarkerOf name).length ≤ c.length := by omega
  have hP : (c.take (si + (startMarkerOf name).length)).length =
      si + (startMarkerOf name).length := by
    simp [hK]
  apply indexOf?_eq_some_iff.mpr
  constructor
  · have hPdrop : (c.take (si + (startMarkerOf name).length)).drop si =
        startMarkerOf name := by
      rw [List.drop_take]
      have he : si + (startMarkerOf name).length - si =
          (startMarkerOf name).length := by omega
      rw [he]
      exact (List.prefix_iff_eq_take.mp hocc).symm
    rw [List.append_assoc,
      List.drop_append_of_le_length (by omega : si ≤
        (c.take (si + (startMarkerOf name).length)).length), hPdrop]
    exact List.prefix_append _ _
  · intro j hj hpre
    rw [List.append_assoc] at hpre
    have hfit : j + (startMarkerOf name).length ≤
        si + (startMarkerOf name).length := by omega
    exact indexOf?_minimal hs j hj (occurrence_in_splice hpre hfit hK)

/-- After splicing, the first occurrence of the end sentinel is the start of
the copied suffix: no occurrence fits in the copied prefix (the original
first occurrence was at or after the end of the start sentinel), none can
straddle the inserted middle (its first and last characters are newlines and
the sentinel contains none), and none sits inside the middle. -/
theorem indexOf?_splice_end {name c : List Char} (mid : List Char) {si ei : Nat}
    (he : indexOf? c (endMarkerOf name) = some ei)
    (horder : si + (startMarkerOf name).length ≤ ei)
    (hemlen : 0 < (endMarkerOf name).length)
    (hnl : newlineChar ∉ endMarkerOf name)
    (hmid : ∀ q, ¬ endMarkerOf name <+: mid.drop q)
    (hhead : mid.head? = some newlineChar)
    (hlast : mid.getLast? = some newlineChar) :
    indexOf? (c.take (si + (startMarkerOf name).length) ++ mid ++ c.drop ei)
      (endMarkerOf name) =
      some (si + (startMarkerOf name).length + mid.length) := by
  have hei_le : ei ≤ c.length := indexOf?_le_length he
  have hK : si + (startMarkerOf name).length ≤ c.length := by omega
  have hP : (c.take (si + (startMarkerOf name).length)).length =
      si + (startMarkerOf name).length := by simp [hK]
  have hmid_ne : mid ≠ [] := by
    intro hemp
    rw [hemp] at hhead
    simp at hhead
  have hmid_pos : 0 < mid.length := List.length_pos.mpr hmid_ne
  have hhead0 : mid[0]? = some newlineChar := by
    cases mid with
    | nil => simp at hhead
    | cons a t => simpa using hhead
  have hlastc : mid[mid.length - 1]? = some newlineChar := by
    rw [← List.getLast?_eq_getElem?]
    exact hlast
  apply indexOf?_eq_some_iff.mpr
  constructor
  · have hsplit :
        (c.take (si + (startMarkerOf name).length) ++ mid ++ c.drop ei).drop
          (si + (startMarkerOf name).length + mid.length) = c.drop ei := by
      apply List.drop_left'
      simp [hP]
    rw [hsplit]
    exact indexOf?_occurrence he
  · intro j hj hpre
    by_cases hj1 : j + (endMarkerOf name).length ≤
        si + (startMarkerOf name).length
    · -- the occurrence fits inside the copied prefix: it is an occurrence in
      -- the original document strictly before the first one
      rw [List.append_assoc] at hpre
      have hocc : endMarkerOf name <+: c.drop j :=
        occurrence_in_splice hpre hj1 hK
      exact indexOf?_minimal he j (by omega) hocc
    · by_cases hj2 : j ≤ si + (startMarkerOf name).length
      · -- the window covers the first character of the middle, a newline
        have hcK :
            (c.take (si + (startMarkerOf name).length) ++ mid ++ c.drop ei)[
              si + (startMarkerOf name).length]? = some newlineChar := by
          rw [List.getElem?_append_left (by simp [hP]; omega)]
          rw [List.getElem?_append_right (by rw [hP])]
          rw [hP, Nat.sub_self]
          exact hhead0
        exact absurd (newline_mem_of_prefix_drop hpre hj2 (by omega) hcK) hnl
      · by_cases hj3 : j + (endMarkerOf name).length ≤
            si + (startMarkerOf name).length + mid.length
        · -- the occurrence sits wholly inside the middle
          have hfit : j + (endMarkerOf name).length ≤
              (c.take (si + (startMarkerOf name).length) ++ mid).length := by
            simp [hP]
            omega
          have h1 : endMarkerOf name <+:
              (c.take (si + (startMarkerOf name).length) ++ mid).drop j :=
            prefix_drop_of_prefix_append_drop hpre hfit
          have h2 : (c.take (si + (startMarkerOf name).length) ++ mid).drop j =
              mid.drop (j - (si + (startMarkerOf name).length)) := by
            have hj4 : j = (c.take (si + (startMarkerOf name).length)).length +
                (j - (si + (startMarkerOf name).length)) := by
              rw [hP]; omega
            conv_lhs => rw [hj4]
            rw [List.drop_append]
          rw [h2] at h1
          exact hmid _ h1
        · -- the window covers the last character of the middle, a newline
          have hcL :
              (c.take (si + (startMarkerOf name).length) ++ mid ++ c.drop ei)[
                si + (startMarkerOf name).length + mid.length - 1]? =
              some newlineChar := by
            rw [List.getElem?_append_left (by simp [hP]; omega)]
            rw [List.getElem?_append_right (by rw [hP]; omega)]
            have hsub : si + (startMarkerOf name).length + mid.length - 1 -
                (c.take (si + (startMarkerOf name).length)).length =
                mid.length - 1 := by
              rw [hP]; omega
            rw [hsub]
            exact hlastc
          exact absurd (newline_mem_of_prefix_drop hpre (by omega) (by omega)
            hcL) hnl
/-- No occurrence of a newline-free, non-empty pattern fits anywhere in
`pre ++ core ++ post` when `pre` and `post` consist of newlines and the
pattern does not occur in `core`. -/
theorem no_occurrence_in_wrapped {em pre core post : List Char}
    (hlen : 0 < em.length) (hnl : newlineChar ∉ em)
    (hpre : ∀ x ∈ pre, x = newlineChar)
    (hpost : ∀ x ∈ post, x = newlineChar)
    (hcore : ∀ q, ¬ em <+: core.drop q) :
    ∀ q, ¬ em <+: (pre ++ core ++ post).drop q := by
  intro q h
  have hbound : q + em.length ≤ pre.length + core.length + post.length := by
    have hl := h.length_le
    simp [List.length_drop, List.length_append] at hl
    omega
  by_cases h1 : q < pre.length
  · have hval : (pre ++ core ++ post)[q]? = some newlineChar := by
      rw [List.getElem?_append_left (by simp; omega)]
      rw [List.getElem?_append_left h1]
      rw [List.getElem?_eq_getElem h1]
      exact congrArg some (hpre _ (List.getElem_mem h1))
    exact hnl (newline_mem_of_prefix_drop h (Nat.le_refl q) (by omega) hval)
  · by_cases h2 : q + em.length ≤ pre.length + core.length
    · have hfit : q + em.length ≤ (pre ++ core).length := by simp; omega
      have hin : em <+: (pre ++ core).drop q :=
        prefix_drop_of_prefix_append_drop h hfit
      have heq : (pre ++ core).drop q = core.drop (q - pre.length) := by
        have hj4 : q = pre.length + (q - pre.length) := by omega
        conv_lhs => rw [hj4]
        rw [List.drop_append]
      rw [heq] at hin
      exact hcore _ hin
    · by_cases h3 : q ≤ pre.length + core.length
      · have hpost_ne : 0 < post.length := by omega
        have hval : (pre ++ core ++ post)[pre.length + core.length]? =
            some newlineChar := by
          rw [List.getElem?_append_right (by simp)]
          have h4 : pre.length + core.length - (pre ++ core).length = 0 := by
            simp
          rw [h4]
          rw [List.getElem?_eq_getElem hpost_ne]
          exact congrArg some (hpost _ (List.getElem_mem hpost_ne))
        exact hnl (newline_mem_of_prefix_drop h h3 (by omega) hval)
      · have hval : (pre ++ core ++ post)[q]? = some newlineChar := by
          rw [List.getElem?_append_right (by simp; omega)]
          have h5 : q - (pre ++ core).length < post.length := by simp; omega
          rw [List.getElem?_eq_getElem h5]
          exact congrArg some (hpost _ (List.getElem_mem h5))
        exact hnl (newline_mem_of_prefix_drop h (Nat.le_refl q) (by omega) hval)

/-- Absence of occurrences up to the length of the text extends to all start
positions, for a non-empty pattern. -/
theorem no_occurrence_extend {em d : List Char} (hlen : 0 < em.length)
    (hd : ∀ q, q ≤ d.length → ¬ em <+: d.drop q) : ∀ q, ¬ em <+: d.drop q := by
  intro q h
  by_cases hq : q ≤ d.length
  · exact hd q hq h
  · rw [List.drop_eq_nil_of_le (by omega)] at h
    have := List.prefix_nil.mp h
    rw [this] at hlen
    simp at hlen

/-- `jsTrim l` is a contiguous slice of `l`. -/
theorem jsTrim_slice (l : List Char) : jsTrim l <:+: l := by
  have h1 : l.dropWhile wsChar <:+ l := List.dropWhile_suffix _
  have h2 : (l.dropWhile wsChar).reverse.dropWhile wsChar <:+
      (l.dropWhile wsChar).reverse := List.dropWhile_suffix _
  have h3 : jsTrim l <+: l.dropWhile wsChar := by
    rw [jsTrim]
    have h4 := List.reverse_prefix.mpr h2
    simpa using h4
  exact h3.isInfix.trans h1.isInfix

/-- A pattern absent from a list is absent from every contiguous slice of
it. -/
theorem no_occurrence_of_infix {em t d : List Char} (hinf : t <:+: d)
    (hd : ∀ q, ¬ em <+: d.drop q) : ∀ q, ¬ em <+: t.drop q := by
  intro q h
  obtain ⟨u, v, huv⟩ := hinf
  apply hd (u.length + q)
  rw [← huv, List.append_assoc, List.drop_append]
  by_cases hq : q ≤ t.length
  · rw [List.drop_append_of_le_length hq]
    exact h.trans (List.prefix_append _ _)
  · rw [List.drop_eq_nil_of_le (by omega)] at h
    rw [List.prefix_nil.mp h]
    exact List.nil_prefix

/-- The end sentinel is never empty. -/
theorem endMarker_length_pos (name : List Char) :
    0 < (endMarkerOf name).length := by
  rw [endMarkerOf]
  have h14 : ("<!-- DOCS:END:".data).length = 14 := rfl
  simp [h14]

/-- A newline-free name yields a newline-free end sentinel. -/
theorem newline_not_mem_endMarker {name : List Char}
    (h : newlineChar ∉ name) : newlineChar ∉ endMarkerOf name := by
  rw [endMarkerOf]
  intro hmem
  rcases List.mem_append.mp hmem with h1 | h2
  · rcases List.mem_append.mp h1 with h3 | h4
    · exact absurd h3 (by decide)
    · exact h h4
  · exact absurd h2 (by decide)

/-- The copied prefix and suffix of a spliced document are recovered by
`take` and `drop` at the marker indices. -/
theorem splice_take_drop {c : List Char} (mid : List Char) (ei : Nat) {K : Nat}
    (hK : K ≤ c.length) :
    (c.take K ++ mid ++ c.drop ei).take K = c.take K ∧
    (c.take K ++ mid ++ c.drop ei).drop (K + mid.length) = c.drop ei := by
  have hP : (c.take K).length = K := by simp [hK]
  constructor
  · rw [List.append_assoc]
    exact List.take_left' hP
  · apply List.drop_left'
    simp [hP]
/-- The once-patched form of `demoInvertedDoc`. -/
def demoInvertedOnce : List Char :=
  demoInvertedDoc ++ (newlineChar :: "X".data ++ [newlineChar]) ++ demoInvertedDoc

/-- C7 counterexample: on a document that contains both sentinels but with
the end sentinel before the start sentinel, applying the same replacement
twice does not equal applying it once — the document keeps growing. -/
theorem c7_idempotence_counterexample :
    DocAgent.updateDocsFile "f".data "X".data demoInvertedDoc =
      some demoInvertedOnce ∧
    DocAgent.updateDocsFile "f".data "X".data demoInvertedOnce ≠
      some demoInvertedOnce := by
  exact ⟨by decide, by decide⟩

/-- C7 amended: the DocumentPatcher is idempotent on documents satisfying the
spec's marker-region invariant — the first start-sentinel occurrence ends at
or before the first end-sentinel occurrence — for a newline-free function
name and a replacement that does not contain the end sentinel.  Under those
hypotheses, in both revisions, patching once succeeds and patching the result
again reproduces it exactly. -/
theorem c7_patch_idempotent :
    ∀ (name d c : List Char) (si ei : Nat),
      indexOf? c (startMarkerOf name) = some si →
      indexOf? c (endMarkerOf name) = some ei →
      si + (startMarkerOf name).length ≤ ei →
      newlineChar ∉ name →
      (∀ q, q ≤ d.length → ¬ endMarkerOf name <+: d.drop q) →
      (∃ r, DocAgent.updateDocsFile name d c = some r ∧
        DocAgent.updateDocsFile name d r = some r) ∧
      (∃ r, Part002.updateDocsFile name d c = some r ∧
        Part002.updateDocsFile name d r = some r) := by
  intro name d c si ei hs he horder hname hd0
  have hemlen := endMarker_length_pos name
  have hnl := newline_not_mem_endMarker hname
  have hd : ∀ q, ¬ endMarkerOf name <+: d.drop q :=
    no_occurrence_extend hemlen hd0
  have hei_le : ei ≤ c.length := indexOf?_le_length he
  have hK : si + (startMarkerOf name).length ≤ c.length := by omega
  constructor
  · -- scripts/doc-agent.js revision, middle = "\n" ++ d ++ "\n"
    have hshape : newlineChar :: d ++ [newlineChar] =
        [newlineChar] ++ d ++ [newlineChar] := by simp
    have hmid : ∀ q, ¬ endMarkerOf name <+:
        (newlineChar :: d ++ [newlineChar]).drop q := by
      rw [hshape]
      exact no_occurrence_in_wrapped hemlen hnl
        (by intro x hx; simpa using hx) (by intro x hx; simpa using hx) hd
    have hhead : (newlineChar :: d ++ [newlineChar]).head? = some newlineChar := rfl
    have hlast : (newlineChar :: d ++ [newlineChar]).getLast? = some newlineChar := by
      rw [show newlineChar :: d ++ [newlineChar] =
        (newlineChar :: d) ++ [newlineChar] by simp]
      exact List.getLast?_concat _
    have hA := indexOf?_splice_start (newlineChar :: d ++ [newlineChar])
      (c.drop ei) hs
    have hB := indexOf?_splice_end (newlineChar :: d ++ [newlineChar])
      he horder hemlen hnl hmid hhead hlast
    obtain ⟨ht, hdrp⟩ := splice_take_drop
      (newlineChar :: d ++ [newlineChar]) ei hK
    refine ⟨c.take (si + (startMarkerOf name).length) ++
      (newlineChar :: d ++ [newlineChar]) ++ c.drop ei, ?_, ?_⟩
    · simp [DocAgent.updateDocsFile, hs, he]
    · simp only [DocAgent.updateDocsFile, hA, hB]
      rw [ht, hdrp]
  · -- part_002 revision, middle = "\n\n" ++ trim d ++ "\n\n"
    have hcore : ∀ q, ¬ endMarkerOf name <+: (jsTrim d).drop q :=
      no_occurrence_of_infix (jsTrim_slice d) hd
    have hshape : newlineChar :: newlineChar :: jsTrim d ++
        [newlineChar, newlineChar] =
        [newlineChar, newlineChar] ++ jsTrim d ++ [newlineChar, newlineChar] := by
      simp
    have hmid : ∀ q, ¬ endMarkerOf name <+:
        (newlineChar :: newlineChar :: jsTrim d ++
          [newlineChar, newlineChar]).drop q := by
      rw [hshape]
      refine no_occurrence_in_wrapped hemlen hnl ?_ ?_ hcore
      · intro x hx
        simpa using hx
      · intro x hx
        simpa using hx
    have hhead : (newlineChar :: newlineChar :: jsTrim d ++
        [newlineChar, newlineChar]).head? = some newlineChar := rfl
    have hlast : (newlineChar :: newlineChar :: jsTrim d ++
        [newlineChar, newlineChar]).getLast? = some newlineChar := by
      rw [show newlineChar :: newlineChar :: jsTrim d ++
        [newlineChar, newlineChar] =
        (newlineChar :: newlineChar :: jsTrim d ++ [newlineChar]) ++
          [newlineChar] by simp]
      exact List.getLast?_concat _
    have hA := indexOf?_splice_start
      (newlineChar :: newlineChar :: jsTrim d ++ [newlineChar, newlineChar])
      (c.drop ei) hs
    have hB := indexOf?_splice_end
      (newlineChar :: newlineChar :: jsTrim d ++ [newlineChar, newlineChar])
      he horder hemlen hnl hmid hhead hlast
    obtain ⟨ht, hdrp⟩ := splice_take_drop
      (newlineChar :: newlineChar :: jsTrim d ++ [newlineChar, newlineChar])
      ei hK
    refine ⟨c.take (si + (startMarkerOf name).length) ++
      (newlineChar :: newlineChar :: jsTrim d ++
        [newlineChar, newlineChar]) ++ c.drop ei, ?_, ?_⟩
    · simp [Part002.updateDocsFile, hs, he]
    · simp only [Part002.updateDocsFile, hA, hB]
      rw [ht, hdrp]

/-- Witness for C7 (amended) at the concrete well-formed document
`demoWellDoc` with replacement `"new"`. -/
theorem c7_patch_idempotent_witness :
    (∃ r, DocAgent.updateDocsFile "f".data "new".data demoWellDoc = some r ∧
      DocAgent.updateDocsFile "f".data "new".data r = some r) ∧
    (∃ r, Part002.updateDocsFile "f".data "new".data demoWellDoc = some r ∧
      Part002.updateDocsFile "f".data "new".data r = some r) :=
  c7_patch_idempotent "f".data "new".data demoWellDoc 7 33
    (by decide) (by decide) (by decide) (by decide) (by decide)

end CodeAnalysis
